import Mathlib

/-!
Verification of the segmented fetch pipeline of `Fruit_day.py`
(repository `Fruit_products`).

The development shallowly embeds the script's functions:

* `period_windows` — the date-window generator (dates as `Int` ordinals,
  the unbounded `while` loop rendered with an explicit fuel argument,
  `none` marking a run that does not terminate within the given fuel);
* `to_roc` / `roc_to_western` — the calendar conversions, together with
  faithful models of the Python primitives they use
  (`str.split(".")`, `int(...)`, `f"{n:0wd}"` formatting);
* `normalize_record` — the field normalizer over association-list records
  whose values live in `PyVal` (Python `None`, strings, ints);
* `get_json` — the bounded retry loop, the upstream modelled as a function
  from attempt index to an optional response, the slept delays returned
  alongside the result;
* `fetch_period_block` — the pagination loop, the upstream modelled as a
  function from (skip, attempt) to an optional response.
-/

/-- Python values that can appear in the records this script handles:
`None`, strings and integers.  (The script treats every value only through
`in (None, "")` membership tests, truthiness, `str()` and `.split`, so this
carrier is enough for the normalizer's behaviour.) -/
inductive PyVal where
  | pyNone
  | pyStr (s : String)
  | pyInt (n : Int)
deriving DecidableEq

/-- Python truthiness for the values in `PyVal` (`not x` in the source). -/
def truthy : PyVal → Bool
  | PyVal.pyNone => false
  | PyVal.pyStr s => if s = "" then false else true
  | PyVal.pyInt n => if n = 0 then false else true

/-- The test `rec[c] in (None, "")` from `pick` in `normalize_record`. -/
def badVal (v : PyVal) : Bool :=
  if v = PyVal.pyNone ∨ v = PyVal.pyStr "" then true else false

/-- Model of Python's `str.split(".")`: cut the character list at every
`'.'`; the accumulator holds the current segment reversed. -/
def splitDotAux : List Char → List Char → List String
  | [], acc => [String.mk acc.reverse]
  | c :: cs, acc =>
      if c = '.' then String.mk acc.reverse :: splitDotAux cs []
      else splitDotAux cs (c :: acc)

/-- `s.split(".")` for a Lean `String`. -/
def pySplitDot (s : String) : List String :=
  splitDotAux s.data []

/-- Strip leading and trailing whitespace from a character list
(model of Python `str.strip()` / the stripping done by `int(...)`;
restricted to ASCII whitespace). -/
def stripWs (cs : List Char) : List Char :=
  ((cs.dropWhile Char.isWhitespace).reverse.dropWhile Char.isWhitespace).reverse

/-- Numeric value of a big-endian list of decimal digit characters. -/
def digitsVal (cs : List Char) : Nat :=
  cs.foldl (fun a c => 10 * a + (c.toNat - 48)) 0

/-- Model of Python's `int(s)`: strip whitespace, allow one optional sign,
then require a non-empty run of decimal digits; `none` models the
`ValueError` raised on anything else.  (Underscore digit separators and
non-ASCII digits, which CPython also accepts, are not modelled.) -/
def parseIntPy (s : String) : Option Int :=
  match stripWs s.data with
  | [] => none
  | '-' :: cs =>
      if !cs.isEmpty && cs.all Char.isDigit then some (-(digitsVal cs : Int)) else none
  | '+' :: cs =>
      if !cs.isEmpty && cs.all Char.isDigit then some ((digitsVal cs : Int)) else none
  | cs =>
      if cs.all Char.isDigit then some ((digitsVal cs : Int)) else none

/-- Little-endian base-10 digits of `n`, with explicit fuel (`fuel ≥ n`
suffices, the recursion divides by 10 each step). -/
def natDigitsRev : Nat → Nat → List Nat
  | 0, _ => []
  | _ + 1, 0 => []
  | fuel + 1, n + 1 => ((n + 1) % 10) :: natDigitsRev fuel ((n + 1) / 10)

/-- Decimal rendering of a natural number as characters (model of
Python's `str(n)` for `n ≥ 0`). -/
def natChars (n : Nat) : List Char :=
  if n = 0 then ['0'] else ((natDigitsRev n n).reverse.map Nat.digitChar)

/-- Model of `f"{n:0wd}"` for `n ≥ 0`: zero-pad the decimal rendering to
minimum width `w`. -/
def padNat (w n : Nat) : String :=
  String.mk (List.replicate (w - (natChars n).length) '0' ++ natChars n)

/-- Model of `f"{n:0wd}"` for a possibly negative `n`: the sign counts
toward the width and precedes the zero padding, as in CPython. -/
def padInt (w : Nat) (n : Int) : String :=
  if n < 0 then
    String.mk ('-' :: (List.replicate (w - 1 - (natChars n.natAbs).length) '0' ++ natChars n.natAbs))
  else padNat w n.toNat

/-- `to_roc` from `Fruit_day.py`: format a (year, month, day) date as
`f"{year:03d}.{month:02d}.{day:02d}"`, the year shifted by −1911 when
`use_roc` is set. -/
def to_roc (year month day : Nat) (use_roc : Bool) : String :=
  let y : Int := if use_roc then (year : Int) - 1911 else (year : Int)
  padInt 3 y ++ "." ++ padInt 2 (month : Int) ++ "." ++ padInt 2 (day : Int)

/-- `roc_to_western` from `Fruit_day.py`: `YYY.MM.DD → YYYY.MM.DD`.
Empty input yields `""`; any split/parse anomaly (segment count ≠ 3,
non-numeric segment — the `ValueError` caught by `except Exception`)
returns the input unchanged. -/
def roc_to_western (date_str : String) : String :=
  if date_str = "" then ""
  else
    match pySplitDot date_str with
    | [p0, p1, p2] =>
        match parseIntPy p0, parseIntPy p1, parseIntPy p2 with
        | some yr, some mo, some dy =>
            padInt 4 (yr + 1911) ++ "." ++ padInt 2 mo ++ "." ++ padInt 2 dy
        | _, _, _ => date_str
    | _ => date_str

/-- `roc_to_western` lifted to `PyVal`, as it is applied inside
`normalize_record`: a falsy argument (`not date_str`) yields `""`;
a truthy non-string raises `AttributeError` at `.split`, which the
`except Exception` turns into returning the argument unchanged. -/
def roc_to_western_v (v : PyVal) : PyVal :=
  if truthy v then
    match v with
    | PyVal.pyStr s => PyVal.pyStr (roc_to_western s)
    | w => w
  else PyVal.pyStr ""

/-- The inner `pick` of `normalize_record`: return the first candidate key
that is present with a value outside `(None, "")`, else `""`. -/
def pick (r : List (String × PyVal)) : List String → PyVal
  | [] => PyVal.pyStr ""
  | c :: cs =>
      match r.lookup c with
      | some v => if badVal v then pick r cs else v
      | none => pick r cs

/-- `OUTPUT_FIELDS` from `Fruit_day.py`. -/
def OUTPUT_FIELDS : List String :=
  ["交易日期", "種類代碼", "作物代號", "作物名稱",
   "市場代號", "市場名稱", "上價", "中價", "下價",
   "平均價", "交易量"]

/-- In-place value replacement for an existing key
(the dict assignment `d["交易日期"] = ...`). -/
def updateField (d : List (String × PyVal)) (k : String) (v : PyVal) : List (String × PyVal) :=
  d.map (fun kv => if kv.1 = k then (kv.1, v) else kv)

/-- Dictionary read `d[k]` (the key is always present where used). -/
def getField (d : List (String × PyVal)) (k : String) : PyVal :=
  (d.lookup k).getD (PyVal.pyStr "")

/-- `normalize_record` from `Fruit_day.py`: build the output dict by
`pick`-ing each target field from its candidate source names, then
replace the 交易日期 entry with its calendar conversion. -/
def normalize_record (r : List (String × PyVal)) : List (String × PyVal) :=
  let d : List (String × PyVal) :=
    [("交易日期", pick r ["TransDate", "交易日期"]),
     ("種類代碼", pick r ["CategoryCode", "種類代碼"]),
     ("作物代號", pick r ["CropCode", "作物代號"]),
     ("作物名稱", pick r ["CropName", "作物名稱"]),
     ("市場代號", pick r ["MarketCode", "市場代號"]),
     ("市場名稱", pick r ["MarketName", "市場名稱"]),
     ("上價", pick r ["UpperPrice", "上價"]),
     ("中價", pick r ["MiddlePrice", "中價"]),
     ("下價", pick r ["LowerPrice", "下價"]),
     ("平均價", pick r ["AveragePrice", "平均價"]),
     ("交易量", pick r ["TransVolume", "交易量"])]
  updateField d "交易日期" (roc_to_western_v (getField d "交易日期"))

/-- Candidate source names probed for each target field of
`normalize_record` (empty for non-target names). -/
def fieldSources (f : String) : List String :=
  if f = "交易日期" then ["TransDate", "交易日期"]
  else if f = "種類代碼" then ["CategoryCode", "種類代碼"]
  else if f = "作物代號" then ["CropCode", "作物代號"]
  else if f = "作物名稱" then ["CropName", "作物名稱"]
  else if f = "市場代號" then ["MarketCode", "市場代號"]
  else if f = "市場名稱" then ["MarketName", "市場名稱"]
  else if f = "上價" then ["UpperPrice", "上價"]
  else if f = "中價" then ["MiddlePrice", "中價"]
  else if f = "下價" then ["LowerPrice", "下價"]
  else if f = "平均價" then ["AveragePrice", "平均價"]
  else if f = "交易量" then ["TransVolume", "交易量"]
  else []

/-- `RETRY_DELAY_BASE` from `Fruit_day.py`. -/
def RETRY_DELAY_BASE : Nat := 1

/-- `period_windows` from `Fruit_day.py`.  Dates are `Int` day ordinals;
a window is the inclusive pair `(period_start, period_end)`.  The source
`while` loop need not terminate (e.g. for `days ≤ 0`), so the embedding
takes fuel: `none` means the loop did not finish within the given fuel. -/
def period_windows (start_d end_d : Int) (days : Int) : Nat → Option (List (Int × Int))
  | 0 => none
  | fuel + 1 =>
      if start_d ≤ end_d then
        let period_end : Int := min end_d (start_d + days - 1)
        (period_windows (period_end + 1) end_d days fuel).map
          (fun ws => (start_d, period_end) :: ws)
      else some []

/-- Upstream JSON bodies as the script distinguishes them: a list of
records, or anything else (`not isinstance(data, list)`). -/
inductive Resp where
  | list (rs : List (List (String × PyVal)))
  | other
deriving DecidableEq

/-- The retry loop of `get_json`.  `attempt i` is the outcome of the
`i`-th request (`none` = transport/decoding failure, `some j` = parsed
body).  Returns the final value together with the list of delays slept
(`RETRY_DELAY_BASE * (i + 1)` after the failed attempt `i`); exhausting
the loop returns `[]` (`Resp.list []`). -/
def get_json_loop (attempt : Nat → Option Resp) : Nat → Nat → List Nat → Resp × List Nat
  | 0, _, delays => (Resp.list [], delays)
  | n + 1, i, delays =>
      match attempt i with
      | some j => (j, delays)
      | none => get_json_loop attempt n (i + 1) (delays ++ [RETRY_DELAY_BASE * (i + 1)])

/-- `get_json` from `Fruit_day.py` (the upstream request abstracted into
`attempt`). -/
def get_json (attempt : Nat → Option Resp) (max_retry : Nat) : Resp × List Nat :=
  get_json_loop attempt max_retry 0 []

/-- Python `str()` on the values of `PyVal`. -/
def pyStrOf : PyVal → String
  | PyVal.pyNone => "None"
  | PyVal.pyStr s => s
  | PyVal.pyInt n => toString n

/-- Python `str.strip()` (ASCII whitespace). -/
def pyStrip (s : String) : String :=
  String.mk (stripWs s.data)

/-- The category read in `fetch_period_block`:
`str(rec.get("CategoryCode", rec.get("種類代碼", ""))).strip()`. -/
def catOf (r : List (String × PyVal)) : String :=
  pyStrip (pyStrOf ((r.lookup "CategoryCode").getD
    ((r.lookup "種類代碼").getD (PyVal.pyStr ""))))

/-- The per-page record processing of `fetch_period_block`: keep, in
order, the normalization of every record whose category equals `"N05"`. -/
def page_rows (data : List (List (String × PyVal))) : List (List (String × PyVal)) :=
  data.filterMap (fun r => if catOf r = "N05" then some (normalize_record r) else none)

/-- The pagination loop of `fetch_period_block`.  `net skip i` is the
outcome of attempt `i` of the request at offset `$skip = skip`; each page
is fetched through `get_json net_skip 5` as in the source.  Returns the
accumulated rows and the list of skip offsets requested; the loop is
unbounded in the source, so the embedding takes fuel. -/
def fetch_loop (net : Nat → Nat → Option Resp) (page_top : Nat) :
    Nat → Nat → List (List (String × PyVal)) → List Nat →
    Option (List (List (String × PyVal)) × List Nat)
  | 0, _, _, _ => none
  | fuel + 1, skip, all_rows, reqs =>
      match (get_json (net skip) 5).1 with
      | Resp.other => some (all_rows, reqs ++ [skip])
      | Resp.list [] => some (all_rows, reqs ++ [skip])
      | Resp.list rs =>
          if rs.length < page_top then
            some (all_rows ++ page_rows rs, reqs ++ [skip])
          else
            fetch_loop net page_top fuel (skip + page_top) (all_rows ++ page_rows rs) (reqs ++ [skip])

/-- `fetch_period_block` from `Fruit_day.py` (dates only feed the request
parameters, which the abstract `net` already closes over). -/
def fetch_period_block (net : Nat → Nat → Option Resp) (page_top : Nat) (fuel : Nat) :
    Option (List (List (String × PyVal)) × List Nat) :=
  fetch_loop net page_top fuel 0 [] []

/-- `ws` tiles the inclusive range `[lo, hi]` exactly: each window starts
where the previous ended + 1 and the last ends at `hi` (this packages
contiguity, absence of overlap and exact coverage). -/
def chainFrom (lo hi : Int) : List (Int × Int) → Bool
  | [] => lo == hi + 1
  | w :: ws => (w.1 == lo) && decide (lo ≤ w.2) && decide (w.2 ≤ hi) && chainFrom (w.2 + 1) hi ws

/-- Every window in `ws` spans between 1 and `d` days inclusive. -/
def lenOk (d : Int) : List (Int × Int) → Bool
  | [] => true
  | w :: ws => decide (1 ≤ w.2 - w.1 + 1) && decide (w.2 - w.1 + 1 ≤ d) && lenOk d ws

/-- Every window except possibly the last spans exactly `d` days. -/
def fullButLast (d : Int) : List (Int × Int) → Bool
  | [] => true
  | [_] => true
  | w :: ws => (w.2 - w.1 + 1 == d) && fullButLast d ws

lemma pw_aux : ∀ (fuel : Nat) (s e d : Int), 1 ≤ d → s ≤ e + 1 → (e + 1 - s).toNat < fuel →
    ∃ ws, period_windows s e d fuel = some ws ∧ chainFrom s e ws = true ∧
      lenOk d ws = true ∧ fullButLast d ws = true := by
  intro fuel
  induction fuel with
  | zero => intro s e d _ _ h; omega
  | succ fuel ih =>
      intro s e d hd hse hfuel
      by_cases hle : s ≤ e
      · have hpe1 : min e (s + d - 1) ≤ e := min_le_left _ _
        have hpe2 : min e (s + d - 1) ≤ s + d - 1 := min_le_right _ _
        have hpe3 : s ≤ min e (s + d - 1) := le_min hle (by omega)
        obtain ⟨ws', hws', hchain', hlen', hfull'⟩ :=
          ih (min e (s + d - 1) + 1) e d hd (by omega) (by omega)
        refine ⟨(s, min e (s + d - 1)) :: ws', ?_, ?_, ?_, ?_⟩
        · simp [period_windows, hle, hws']
        · simp [chainFrom, hpe1, hpe3, hchain']
        · simp [lenOk, hlen']
          omega
        · cases ws' with
          | nil => simp [fullButLast]
          | cons w t =>
              have hx : min e (s + d - 1) + 1 ≤ w.2 ∧ w.2 ≤ e := by
                simp [chainFrom] at hchain'
                exact ⟨hchain'.1.1.2, hchain'.1.2⟩
              have hlt : min e (s + d - 1) < e := by omega
              have heq : min e (s + d - 1) = s + d - 1 := by omega
              simp [fullButLast, hfull']
              omega
      · have : s = e + 1 := by omega
        refine ⟨[], ?_, ?_, rfl, rfl⟩
        · simp [period_windows, hle]
        · simp [chainFrom, this]

/-- Claim C1: for `start ≤ end` and `segment_days ≥ 1` (and enough fuel
for the loop, which always terminates under these hypotheses), the
windows produced by `period_windows` tile `[start, end]` exactly —
contiguous, non-overlapping, covering — each window spans at most
`segment_days` days, and every window except possibly the last spans
exactly `segment_days` days. -/
theorem period_windows_tiling (s e d : Int) (fuel : Nat)
    (hse : s ≤ e) (hd : 1 ≤ d) (hfuel : (e + 1 - s).toNat < fuel) :
    ∃ ws, period_windows s e d fuel = some ws ∧ chainFrom s e ws = true ∧
      lenOk d ws = true ∧ fullButLast d ws = true :=
  pw_aux fuel s e d hd (by omega) hfuel

/-- Witness for C1 at the concrete range `[10, 14]` with segment length 2. -/
theorem period_windows_tiling_witness :
    ∃ ws, period_windows 10 14 2 9 = some ws ∧ chainFrom 10 14 ws = true ∧
      lenOk 2 ws = true ∧ fullButLast 2 ws = true :=
  period_windows_tiling 10 14 2 9 (by decide) (by decide) (by decide)

lemma pw_nonterm : ∀ (fuel : Nat) (s e d : Int), d ≤ 0 → s ≤ e →
    period_windows s e d fuel = none := by
  intro fuel
  induction fuel with
  | zero => intro s e d _ _; rfl
  | succ fuel ih =>
      intro s e d hd hse
      have hmin : min e (s + d - 1) = s + d - 1 := min_eq_right (by omega)
      simp only [period_windows, if_pos hse, hmin]
      rw [ih (s + d - 1 + 1) e d hd (by omega)]
      rfl

/-- Counterexample to claim C2: `period_windows` raises no
`InvalidRangeError` (no such error exists anywhere in the code).  With
`start_date > end_date` the generator terminates normally and yields the
empty sequence of windows, and with `segment_days = 0 < 1` the loop never
terminates (it exhausts any fuel), instead of failing with an error in
either case. -/
theorem period_windows_no_error_cex :
    period_windows 2 1 10 5 = some [] ∧ period_windows 1 5 0 50 = none := by
  constructor
  · rfl
  · rfl

/-- Claim C2, amended: the Window Planner never raises.  When
`start_date > end_date` it immediately yields the empty window sequence;
when `segment_days < 1` (and `start_date ≤ end_date`) the generator loop
never terminates — the cursor never passes `end_date` — so no value and
no error is ever produced.  No `InvalidRangeError` exists in the code. -/
theorem period_windows_no_error (s e d : Int) (fuel : Nat) :
    (e < s → 1 ≤ fuel → period_windows s e d fuel = some []) ∧
    (d ≤ 0 → s ≤ e → period_windows s e d fuel = none) := by
  constructor
  · intro hlt hfuel
    cases fuel with
    | zero => omega
    | succ fuel => simp [period_windows]; omega
  · intro hd hse
    exact pw_nonterm fuel s e d hd hse

/-- Witness for the amended C2 at concrete inputs. -/
theorem period_windows_no_error_witness :
    period_windows 7 4 10 3 = some [] ∧ period_windows 2 6 (-2) 9 = none :=
  ⟨(period_windows_no_error 7 4 10 3).1 (by decide) (by decide),
   (period_windows_no_error 2 6 (-2) 9).2 (by decide) (by decide)⟩

lemma digitChar_facts : ∀ d : Nat, d < 10 →
    (Nat.digitChar d).toNat - 48 = d ∧ (Nat.digitChar d).isDigit = true ∧
    (Nat.digitChar d).isWhitespace = false ∧ Nat.digitChar d ≠ '.' ∧
    Nat.digitChar d ≠ '-' ∧ Nat.digitChar d ≠ '+' := by decide

lemma natDigitsRev_lt : ∀ (fuel n d : Nat), d ∈ natDigitsRev fuel n → d < 10 := by
  intro fuel
  induction fuel with
  | zero => intro n d h; simp [natDigitsRev] at h
  | succ fuel ih =>
      intro n d h
      cases n with
      | zero => simp [natDigitsRev] at h
      | succ m =>
          simp only [natDigitsRev, List.mem_cons] at h
          rcases h with h | h
          · omega
          · exact ih _ _ h

lemma foldl_natDigitsRev : ∀ (fuel n : Nat), n ≤ fuel → ∀ (a : Nat),
    List.foldl (fun acc c => 10 * acc + (c.toNat - 48)) a
      ((natDigitsRev fuel n).reverse.map Nat.digitChar)
      = a * 10 ^ (natDigitsRev fuel n).length + n := by
  intro fuel
  induction fuel with
  | zero =>
      intro n hn a
      have : n = 0 := by omega
      subst this
      simp [natDigitsRev]
  | succ fuel ih =>
      intro n hn a
      cases n with
      | zero => simp [natDigitsRev]
      | succ m =>
          have hq : (m + 1) / 10 ≤ fuel := by
            have := Nat.div_lt_self (Nat.succ_pos m) (by norm_num : 1 < 10)
            omega
          have hd : (Nat.digitChar ((m + 1) % 10)).toNat - 48 = (m + 1) % 10 :=
            (digitChar_facts _ (Nat.mod_lt _ (by norm_num))).1
          have hdm : 10 * ((m + 1) / 10) + (m + 1) % 10 = m + 1 := Nat.div_add_mod _ 10
          simp only [natDigitsRev, List.reverse_cons, List.map_append, List.map_cons,
            List.map_nil, List.foldl_append, List.foldl_cons, List.foldl_nil,
            List.length_cons]
          rw [ih _ hq a, hd, pow_succ]
          calc 10 * (a * 10 ^ (natDigitsRev fuel ((m + 1) / 10)).length + (m + 1) / 10)
                + (m + 1) % 10
              = a * (10 ^ (natDigitsRev fuel ((m + 1) / 10)).length * 10)
                + (10 * ((m + 1) / 10) + (m + 1) % 10) := by ring
            _ = a * (10 ^ (natDigitsRev fuel ((m + 1) / 10)).length * 10) + (m + 1) := by
                rw [hdm]

lemma natChars_ne_nil : ∀ n : Nat, natChars n ≠ [] := by
  intro n
  cases n with
  | zero => simp [natChars]
  | succ m => simp [natChars, natDigitsRev]

lemma natChars_mem : ∀ (n : Nat) (c : Char), c ∈ natChars n →
    c.isDigit = true ∧ c.isWhitespace = false ∧ c ≠ '.' ∧ c ≠ '-' ∧ c ≠ '+' := by
  intro n c hc
  cases n with
  | zero =>
      simp [natChars] at hc
      subst hc
      refine ⟨by decide, by decide, by decide, by decide, by decide⟩
  | succ m =>
      simp only [natChars, if_neg (Nat.succ_ne_zero m), List.mem_map,
        List.mem_reverse] at hc
      obtain ⟨d, hd, rfl⟩ := hc
      have hlt := natDigitsRev_lt _ _ _ hd
      obtain ⟨_, h2, h3, h4, h5, h6⟩ := digitChar_facts d hlt
      exact ⟨h2, h3, h4, h5, h6⟩

lemma digitsVal_natChars (n : Nat) : digitsVal (natChars n) = n := by
  cases n with
  | zero => decide
  | succ m =>
      unfold digitsVal natChars
      rw [if_neg (Nat.succ_ne_zero m)]
      have := foldl_natDigitsRev (m + 1) (m + 1) le_rfl 0
      simpa using this

lemma foldl_replicate_zero (k : Nat) :
    List.foldl (fun a c => 10 * a + (c.toNat - 48)) 0 (List.replicate k '0') = 0 := by
  induction k with
  | zero => rfl
  | succ k ih => simpa [List.replicate_succ] using ih

lemma digitsVal_replicate_zero (k : Nat) (cs : List Char) :
    digitsVal (List.replicate k '0' ++ cs) = digitsVal cs := by
  unfold digitsVal
  rw [List.foldl_append, foldl_replicate_zero]

lemma dropWhile_not_ws (l : List Char) (h : ∀ c ∈ l, c.isWhitespace = false) :
    l.dropWhile Char.isWhitespace = l := by
  cases l with
  | nil => rfl
  | cons c cs =>
      rw [List.dropWhile_cons_of_neg]
      simp [h c (by simp)]

lemma stripWs_eq_self (l : List Char) (h : ∀ c ∈ l, c.isWhitespace = false) :
    stripWs l = l := by
  unfold stripWs
  rw [dropWhile_not_ws l h, dropWhile_not_ws l.reverse (by simpa using h),
    List.reverse_reverse]

lemma parseIntPy_digits (L : List Char) (hne : L ≠ [])
    (hd : ∀ c ∈ L, c.isDigit = true ∧ c.isWhitespace = false ∧ c ≠ '-' ∧ c ≠ '+') :
    parseIntPy (String.mk L) = some ((digitsVal L : Int)) := by
  unfold parseIntPy
  have hdata : (String.mk L).data = L := rfl
  rw [hdata, stripWs_eq_self L (fun c hc => (hd c hc).2.1)]
  obtain ⟨c, rest, rfl⟩ : ∃ c rest, L = c :: rest := by
    cases L with
    | nil => exact absurd rfl hne
    | cons c rest => exact ⟨c, rest, rfl⟩
  have hc := hd c (by simp)
  have hall : (c :: rest).all Char.isDigit = true := by
    simp only [List.all_eq_true]
    intro x hx
    exact (hd x hx).1
  split
  · simp_all
  · rename_i heq
    rw [List.cons_eq_cons] at heq
    exact absurd heq.1 hc.2.2.1
  · rename_i heq
    rw [List.cons_eq_cons] at heq
    exact absurd heq.1 hc.2.2.2
  · rw [if_pos hall]

lemma padNat_data (w n : Nat) :
    (padNat w n).data = List.replicate (w - (natChars n).length) '0' ++ natChars n := rfl

lemma padNat_mem (w n : Nat) (c : Char) (hc : c ∈ (padNat w n).data) :
    c.isDigit = true ∧ c.isWhitespace = false ∧ c ≠ '.' ∧ c ≠ '-' ∧ c ≠ '+' := by
  rw [padNat_data, List.mem_append] at hc
  rcases hc with hc | hc
  · rw [List.eq_of_mem_replicate hc]
    exact ⟨by decide, by decide, by decide, by decide, by decide⟩
  · exact natChars_mem n c hc

lemma padNat_data_ne_nil (w n : Nat) : (padNat w n).data ≠ [] := by
  rw [padNat_data]
  intro h
  exact natChars_ne_nil n (List.append_eq_nil.mp h).2

lemma parseIntPy_padNat (w n : Nat) : parseIntPy (padNat w n) = some ((n : Int)) := by
  have h1 : parseIntPy (String.mk (padNat w n).data) = some ((digitsVal (padNat w n).data : Int)) :=
    parseIntPy_digits _ (padNat_data_ne_nil w n)
      (fun c hc => ⟨(padNat_mem w n c hc).1, (padNat_mem w n c hc).2.1,
        (padNat_mem w n c hc).2.2.2.1, (padNat_mem w n c hc).2.2.2.2⟩)
  have h2 : String.mk (padNat w n).data = padNat w n := rfl
  rw [h2] at h1
  rw [h1, padNat_data, digitsVal_replicate_zero, digitsVal_natChars]

lemma splitDotAux_no_dot : ∀ (l acc : List Char), (∀ c ∈ l, c ≠ '.') →
    splitDotAux l acc = [String.mk (acc.reverse ++ l)] := by
  intro l
  induction l with
  | nil => intro acc _; simp [splitDotAux]
  | cons c cs ih =>
      intro acc h
      rw [splitDotAux, if_neg (h c (by simp)), ih (c :: acc) (fun x hx => h x (by simp [hx]))]
      simp

lemma splitDotAux_dot : ∀ (l acc rest : List Char), (∀ c ∈ l, c ≠ '.') →
    splitDotAux (l ++ '.' :: rest) acc = String.mk (acc.reverse ++ l) :: splitDotAux rest [] := by
  intro l
  induction l with
  | nil => intro acc rest _; simp [splitDotAux]
  | cons c cs ih =>
      intro acc rest h
      rw [List.cons_append, splitDotAux, if_neg (h c (by simp)),
        ih (c :: acc) rest (fun x hx => h x (by simp [hx]))]
      simp

lemma pySplitDot_three (a b c : List Char)
    (ha : ∀ x ∈ a, x ≠ '.') (hb : ∀ x ∈ b, x ≠ '.') (hc : ∀ x ∈ c, x ≠ '.') :
    pySplitDot (String.mk (a ++ '.' :: (b ++ '.' :: c))) =
      [String.mk a, String.mk b, String.mk c] := by
  unfold pySplitDot
  have hdata : (String.mk (a ++ '.' :: (b ++ '.' :: c))).data = a ++ '.' :: (b ++ '.' :: c) := rfl
  rw [hdata, splitDotAux_dot a [] _ ha, splitDotAux_dot b [] _ hb, splitDotAux_no_dot c [] hc]
  simp

lemma str_append_data (s t : String) : (s ++ t).data = s.data ++ t.data := rfl

lemma dot_data : ("." : String).data = ['.'] := rfl

lemma str_join3 (A B C : String) :
    A ++ "." ++ B ++ "." ++ C = String.mk (A.data ++ '.' :: (B.data ++ '.' :: C.data)) := by
  apply String.ext
  simp [str_append_data, dot_data]

lemma str_mk_data (s : String) : String.mk s.data = s := rfl

lemma roc_to_western_of_parse (s p0 p1 p2 : String) (yr mo dy : Int)
    (hne : s ≠ "") (hsplit : pySplitDot s = [p0, p1, p2])
    (h0 : parseIntPy p0 = some yr) (h1 : parseIntPy p1 = some mo)
    (h2 : parseIntPy p2 = some dy) :
    roc_to_western s = padInt 4 (yr + 1911) ++ "." ++ padInt 2 mo ++ "." ++ padInt 2 dy := by
  unfold roc_to_western
  rw [if_neg hne, hsplit]
  simp only [h0, h1, h2]

/-- Claim C8: the calendar conversions round-trip.  For every date with
standard year `≥ 1912`, rendering it with `to_roc` (offset year,
`YYY.MM.DD`) and converting back with `roc_to_western` yields the
original date rendered as `YYYY.MM.DD` (the same `f"{…:04d}.{…:02d}.{…:02d}"`
formatting applied to the untranslated year). -/
theorem roc_round_trip (y m d : Nat) (hy : 1912 ≤ y) :
    roc_to_western (to_roc y m d true) =
      padInt 4 (y : Int) ++ "." ++ padInt 2 (m : Int) ++ "." ++ padInt 2 (d : Int) := by
  have hm2 : padInt 2 (m : Int) = padNat 2 m := by
    unfold padInt
    rw [if_neg (by omega), Int.toNat_natCast]
  have hd2 : padInt 2 (d : Int) = padNat 2 d := by
    unfold padInt
    rw [if_neg (by omega), Int.toNat_natCast]
  have hy3 : padInt 3 ((y : Int) - 1911) = padNat 3 ((y : Int) - 1911).toNat := by
    unfold padInt
    rw [if_neg (by omega)]
  have hroc : to_roc y m d true =
      padInt 3 ((y : Int) - 1911) ++ "." ++ padInt 2 (m : Int) ++ "." ++ padInt 2 (d : Int) := rfl
  have hne : String.mk ((padNat 3 ((y : Int) - 1911).toNat).data ++ '.' ::
      ((padNat 2 m).data ++ '.' :: (padNat 2 d).data)) ≠ "" := by
    intro h
    have hdat := congrArg String.data h
    simp at hdat
  have hcast : ((((y : Int) - 1911).toNat : Int) + 1911) = (y : Int) := by
    rw [Int.toNat_of_nonneg (by omega)]
    ring
  rw [hroc, hy3, hm2, hd2, str_join3]
  rw [roc_to_western_of_parse _ (padNat 3 ((y : Int) - 1911).toNat) (padNat 2 m) (padNat 2 d)
    (((y : Int) - 1911).toNat : Int) (m : Int) (d : Int) hne
    (pySplitDot_three _ _ _
      (fun x hx => (padNat_mem _ _ x hx).2.2.1)
      (fun x hx => (padNat_mem _ _ x hx).2.2.1)
      (fun x hx => (padNat_mem _ _ x hx).2.2.1))
    (parseIntPy_padNat _ _) (parseIntPy_padNat _ _) (parseIntPy_padNat _ _)]
  rw [hcast, hm2, hd2]

/-- Witness for C8 at the concrete date 2020-05-03. -/
theorem roc_round_trip_witness :
    roc_to_western (to_roc 2020 5 3 true) =
      padInt 4 (2020 : Int) ++ "." ++ padInt 2 (5 : Int) ++ "." ++ padInt 2 (3 : Int) :=
  roc_round_trip 2020 5 3 (by decide)

/-- Claim C9: `roc_to_western` is the identity on every malformed date
string — one whose dot-split does not have exactly 3 segments, or one of
whose segments fails integer parsing — and (being a total function) never
raises; the parse anomaly never propagates. -/
theorem roc_malformed_unchanged (s : String)
    (h : (pySplitDot s).length ≠ 3 ∨ ∃ p ∈ pySplitDot s, parseIntPy p = none) :
    roc_to_western s = s := by
  by_cases hs : s = ""
  · subst hs; rfl
  · unfold roc_to_western
    rw [if_neg hs]
    split
    · rename_i p0 p1 p2 heq
      split
      · rename_i yr mo dy h0 h1 h2
        exfalso
        rcases h with h | ⟨p, hp, hnone⟩
        · rw [heq] at h; simp at h
        · rw [heq] at hp
          simp at hp
          rcases hp with rfl | rfl | rfl <;> simp_all
      · rfl
    · rfl

/-- Witness for C9 at the two-segment string `"109.13"`. -/
theorem roc_malformed_unchanged_witness : roc_to_western "109.13" = "109.13" :=
  roc_malformed_unchanged "109.13" (by decide)

/-- A raw record carrying a transaction date in offset-calendar form. -/
def recC3 : List (String × PyVal) := [("TransDate", PyVal.pyStr "109.01.01")]

/-- Counterexample to claim C3 as stated: the transaction-date output
field does not hold the first present non-empty candidate value verbatim
— the picked value `"109.01.01"` is calendar-converted to `"2020.01.01"`
before being stored. -/
theorem normalize_record_not_verbatim_cex :
    pick recC3 ["TransDate", "交易日期"] = PyVal.pyStr "109.01.01" ∧
    getField (normalize_record recC3) "交易日期" = PyVal.pyStr "2020.01.01" ∧
    getField (normalize_record recC3) "交易日期" ≠ pick recC3 ["TransDate", "交易日期"] := by
  decide

/-- Claim C3, amended: `normalize_record` is total (the embedding is a
total function; the one potentially raising step, `.split` on a
non-string date value, is caught in the source and modelled by
`roc_to_western_v`).  For any input mapping it returns a record whose
keys are exactly `OUTPUT_FIELDS`; every field other than 交易日期 holds
the first present non-empty value among its source-name candidates (or
`""` when none is present non-empty), and 交易日期 holds the calendar
conversion `roc_to_western_v` of that picked value. -/
theorem normalize_record_total (r : List (String × PyVal)) :
    (normalize_record r).map Prod.fst = OUTPUT_FIELDS ∧
    (normalize_record r).lookup "交易日期" =
      some (roc_to_western_v (pick r ["TransDate", "交易日期"])) ∧
    (normalize_record r).lookup "種類代碼" = some (pick r ["CategoryCode", "種類代碼"]) ∧
    (normalize_record r).lookup "作物代號" = some (pick r ["CropCode", "作物代號"]) ∧
    (normalize_record r).lookup "作物名稱" = some (pick r ["CropName", "作物名稱"]) ∧
    (normalize_record r).lookup "市場代號" = some (pick r ["MarketCode", "市場代號"]) ∧
    (normalize_record r).lookup "市場名稱" = some (pick r ["MarketName", "市場名稱"]) ∧
    (normalize_record r).lookup "上價" = some (pick r ["UpperPrice", "上價"]) ∧
    (normalize_record r).lookup "中價" = some (pick r ["MiddlePrice", "中價"]) ∧
    (normalize_record r).lookup "下價" = some (pick r ["LowerPrice", "下價"]) ∧
    (normalize_record r).lookup "平均價" = some (pick r ["AveragePrice", "平均價"]) ∧
    (normalize_record r).lookup "交易量" = some (pick r ["TransVolume", "交易量"]) :=
  ⟨rfl, rfl, rfl, rfl, rfl, rfl, rfl, rfl, rfl, rfl, rfl, rfl⟩

/-- Claim C10: the calendar conversion touches only the 交易日期 output
field.  Every other target field of `normalize_record` equals, verbatim
and without any reformatting or coercion, the first present non-empty
value among that field's source-name candidates (or `""`). -/
theorem normalize_record_frame (r : List (String × PyVal)) (f : String)
    (hf : f ∈ OUTPUT_FIELDS) (hne : f ≠ "交易日期") :
    (normalize_record r).lookup f = some (pick r (fieldSources f)) := by
  fin_cases hf
  · exact absurd rfl hne
  all_goals rfl

/-- Witness for C10 at a concrete record and the 上價 field. -/
theorem normalize_record_frame_witness :
    (normalize_record [("UpperPrice", PyVal.pyInt 12)]).lookup "上價" =
      some (pick [("UpperPrice", PyVal.pyInt 12)] (fieldSources "上價")) :=
  normalize_record_frame [("UpperPrice", PyVal.pyInt 12)] "上價" (by decide) (by decide)

lemma pick_bad (r : List (String × PyVal)) : ∀ cs, badVal (pick r cs) = true →
    pick r cs = PyVal.pyStr "" := by
  intro cs
  induction cs with
  | nil => intro _; rfl
  | cons c cs ih =>
      intro h
      rw [pick] at h ⊢
      cases hl : r.lookup c with
      | none =>
          rw [hl] at h
          exact ih h
      | some v =>
          rw [hl] at h
          have h' : badVal (if badVal v = true then pick r cs else v) = true := h
          show (if badVal v = true then pick r cs else v) = PyVal.pyStr ""
          cases hb : badVal v with
          | true =>
              have hg : (if badVal v = true then pick r cs else v) = pick r cs := by simp [hb]
              rw [hg] at h'
              simp only [if_pos rfl]
              exact ih h'
          | false =>
              have hg : (if badVal v = true then pick r cs else v) = v := by simp [hb]
              rw [hg] at h'
              simp_all

lemma if_badVal_pick (r : List (String × PyVal)) (cs : List String) :
    (if badVal (pick r cs) then PyVal.pyStr "" else pick r cs) = pick r cs := by
  cases h : badVal (pick r cs)
  · simp
  · simp [pick_bad r cs h]

lemma roc_v_ne_none (v : PyVal) : roc_to_western_v v ≠ PyVal.pyNone := by
  cases v <;> simp [roc_to_western_v, truthy] <;> split <;> simp_all

lemma badVal_roc_v (v : PyVal) (h : badVal (roc_to_western_v v) = true) :
    roc_to_western_v v = PyVal.pyStr "" := by
  rw [badVal] at h
  split at h
  · rename_i hor
    rcases hor with hnone | hempty
    · exact absurd hnone (roc_v_ne_none v)
    · exact hempty
  · exact absurd h (by simp)

lemma if_badVal_roc (v : PyVal) :
    (if badVal (roc_to_western_v v) then PyVal.pyStr "" else roc_to_western_v v) =
      roc_to_western_v v := by
  cases h : badVal (roc_to_western_v v)
  · simp
  · simp [badVal_roc_v v h]

/-- A raw record for the idempotence counterexample. -/
def recC4 : List (String × PyVal) := [("TransDate", PyVal.pyStr "110.02.03")]

/-- Counterexample to claim C4: `normalize_record` is not idempotent.
On a record whose transaction date is `"110.02.03"`, one application
stores `"2021.02.03"`, but a second application converts again and
stores `"3932.02.03"` (the offset 1911 is added a second time), so the
outputs differ. -/
theorem normalize_record_not_idem_cex :
    normalize_record (normalize_record recC4) ≠ normalize_record recC4 ∧
    getField (normalize_record recC4) "交易日期" = PyVal.pyStr "2021.02.03" ∧
    getField (normalize_record (normalize_record recC4)) "交易日期" =
      PyVal.pyStr "3932.02.03" := by
  decide

lemma pick_two_of_lookup (r : List (String × PyVal)) (c f : String)
    (hc : (normalize_record r).lookup c = none)
    (hf : (normalize_record r).lookup f = some (pick r [c, f])) :
    pick (normalize_record r) [c, f] = pick r [c, f] := by
  simp only [pick, hc, hf]
  exact if_badVal_pick r [c, f]

/-- Claim C4, amended: re-running `normalize_record` on its own output
preserves every field except 交易日期, which undergoes the calendar
conversion a second time.  Formally, the double application equals the
single application with only the 交易日期 value replaced by
`roc_to_western_v` of itself; full idempotence therefore holds exactly
when that second conversion is the identity (e.g. empty, malformed or
non-string date values) and fails for well-formed dates, whose year is
shifted by 1911 again. -/
theorem normalize_record_twice (r : List (String × PyVal)) :
    normalize_record (normalize_record r) =
      updateField (normalize_record r) "交易日期"
        (roc_to_western_v (getField (normalize_record r) "交易日期")) := by
  have f0 : pick (normalize_record r) ["TransDate", "交易日期"] =
      roc_to_western_v (pick r ["TransDate", "交易日期"]) := by
    have e : pick (normalize_record r) ["TransDate", "交易日期"] =
        (if badVal (roc_to_western_v (pick r ["TransDate", "交易日期"])) = true
         then PyVal.pyStr ""
         else roc_to_western_v (pick r ["TransDate", "交易日期"])) := rfl
    rw [e]
    exact if_badVal_roc _
  have f1 := pick_two_of_lookup r "CategoryCode" "種類代碼" rfl rfl
  have f2 := pick_two_of_lookup r "CropCode" "作物代號" rfl rfl
  have f3 := pick_two_of_lookup r "CropName" "作物名稱" rfl rfl
  have f4 := pick_two_of_lookup r "MarketCode" "市場代號" rfl rfl
  have f5 := pick_two_of_lookup r "MarketName" "市場名稱" rfl rfl
  have f6 := pick_two_of_lookup r "UpperPrice" "上價" rfl rfl
  have f7 := pick_two_of_lookup r "MiddlePrice" "中價" rfl rfl
  have f8 := pick_two_of_lookup r "LowerPrice" "下價" rfl rfl
  have f9 := pick_two_of_lookup r "AveragePrice" "平均價" rfl rfl
  have f10 := pick_two_of_lookup r "TransVolume" "交易量" rfl rfl
  have hL : normalize_record (normalize_record r) =
      updateField
        [("交易日期", pick (normalize_record r) ["TransDate", "交易日期"]),
         ("種類代碼", pick (normalize_record r) ["CategoryCode", "種類代碼"]),
         ("作物代號", pick (normalize_record r) ["CropCode", "作物代號"]),
         ("作物名稱", pick (normalize_record r) ["CropName", "作物名稱"]),
         ("市場代號", pick (normalize_record r) ["MarketCode", "市場代號"]),
         ("市場名稱", pick (normalize_record r) ["MarketName", "市場名稱"]),
         ("上價", pick (normalize_record r) ["UpperPrice", "上價"]),
         ("中價", pick (normalize_record r) ["MiddlePrice", "中價"]),
         ("下價", pick (normalize_record r) ["LowerPrice", "下價"]),
         ("平均價", pick (normalize_record r) ["AveragePrice", "平均價"]),
         ("交易量", pick (normalize_record r) ["TransVolume", "交易量"])]
        "交易日期"
        (roc_to_western_v (pick (normalize_record r) ["TransDate", "交易日期"])) := rfl
  rw [hL, f0, f1, f2, f3, f4, f5, f6, f7, f8, f9, f10]
  rfl

/-- A stub upstream record with category `"N05"` and an identifying index. -/
def mkRec (i : Nat) : List (String × PyVal) :=
  [("CategoryCode", PyVal.pyStr "N05"), ("TransVolume", PyVal.pyInt (i : Int))]

/-- A stub page of `n` records with indices `a, a+1, …, a+n-1`. -/
def stubPage (a n : Nat) : List (List (String × PyVal)) :=
  (List.range n).map (fun j => mkRec (a + j))

/-- A stub upstream whose first 4 attempts fail and whose 5th succeeds. -/
def att6 : Nat → Option Resp := fun i => if i < 4 then none else some (Resp.list [mkRec 9])

lemma get_json_loop_congr : ∀ (n i : Nat) (ds : List Nat) (a b : Nat → Option Resp),
    (∀ j, j < i + n → a j = b j) → get_json_loop a n i ds = get_json_loop b n i ds := by
  intro n
  induction n with
  | zero => intro i ds a b h; rfl
  | succ n ih =>
      intro i ds a b h
      rw [get_json_loop, get_json_loop, h i (by omega)]
      cases b i with
      | some j => rfl
      | none => exact ih (i + 1) _ a b (fun j hj => h j (by omega))

/-- Claim C6: `get_json` makes at most 5 attempts — its result depends
only on the outcomes of attempts `0..4` — sleeping
`RETRY_DELAY_BASE * (attempt_number)` seconds after each failed attempt;
against an upstream failing on its first 4 attempts and succeeding on
the 5th, it returns the successful response with the delay sequence
`[1, 2, 3, 4]` slept before success (the 5th attempt is still within the
budget of `range(5)`, so succeeding there consumes no further retry). -/
theorem get_json_retry_budget :
    get_json att6 5 = (Resp.list [mkRec 9], [1, 2, 3, 4]) ∧
    (∀ a b : Nat → Option Resp, (∀ i, i < 5 → a i = b i) → get_json a 5 = get_json b 5) := by
  constructor
  · rfl
  · intro a b h
    exact get_json_loop_congr 5 0 [] a b (fun j hj => h j (by omega))

/-- Witness for the bounded-budget half of C6: two upstreams agreeing on
attempts `0..4` produce identical results. -/
theorem get_json_retry_budget_witness :
    get_json (fun _ => none) 5 =
      get_json (fun i => if i < 5 then none else some Resp.other) 5 :=
  get_json_retry_budget.2 _ _ (by decide)

lemma get_json_first_success (att : Nat → Option Resp) (j : Resp) (h : att 0 = some j)
    (n : Nat) : get_json att (n + 1) = (j, []) := by
  unfold get_json
  rw [get_json_loop, h]

lemma get_json_all_fail (att : Nat → Option Resp) (h : ∀ i, i < 5 → att i = none) :
    get_json att 5 = (Resp.list [], [1, 2, 3, 4, 5]) := by
  show get_json_loop att (4 + 1) 0 [] = _
  rw [get_json_loop, h 0 (by omega)]
  show get_json_loop att (3 + 1) 1 [1] = _
  rw [get_json_loop, h 1 (by omega)]
  show get_json_loop att (2 + 1) 2 [1, 2] = _
  rw [get_json_loop, h 2 (by omega)]
  show get_json_loop att (1 + 1) 3 [1, 2, 3] = _
  rw [get_json_loop, h 3 (by omega)]
  show get_json_loop att (0 + 1) 4 [1, 2, 3, 4] = _
  rw [get_json_loop, h 4 (by omega)]
  rfl

lemma fetch_loop_stop_short (net : Nat → Nat → Option Resp) (top fuel skip : Nat)
    (acc : List (List (String × PyVal))) (tr : List Nat)
    (rs : List (List (String × PyVal)))
    (hnet : net skip 0 = some (Resp.list rs)) (hne : rs ≠ []) (hlen : rs.length < top) :
    fetch_loop net top (fuel + 1) skip acc tr = some (acc ++ page_rows rs, tr ++ [skip]) := by
  have hg : (get_json (net skip) 5).1 = Resp.list rs :=
    congrArg Prod.fst (get_json_first_success (net skip) _ hnet 4)
  rw [fetch_loop, hg]
  cases rs with
  | nil => exact absurd rfl hne
  | cons x xs =>
      simp only [List.length_cons] at hlen
      simp [hlen]

lemma fetch_loop_continue (net : Nat → Nat → Option Resp) (top fuel skip : Nat)
    (acc : List (List (String × PyVal))) (tr : List Nat)
    (rs : List (List (String × PyVal)))
    (hnet : net skip 0 = some (Resp.list rs)) (hne : rs ≠ []) (hlen : ¬rs.length < top) :
    fetch_loop net top (fuel + 1) skip acc tr =
      fetch_loop net top fuel (skip + top) (acc ++ page_rows rs) (tr ++ [skip]) := by
  have hg : (get_json (net skip) 5).1 = Resp.list rs :=
    congrArg Prod.fst (get_json_first_success (net skip) _ hnet 4)
  rw [fetch_loop, hg]
  cases rs with
  | nil => exact absurd rfl hne
  | cons x xs =>
      simp [hlen]
      intro h
      exact absurd h hlen

lemma fetch_loop_stop_fail (net : Nat → Nat → Option Resp) (top fuel skip : Nat)
    (acc : List (List (String × PyVal))) (tr : List Nat)
    (hnet : ∀ i, i < 5 → net skip i = none) :
    fetch_loop net top (fuel + 1) skip acc tr = some (acc, tr ++ [skip]) := by
  have hg : (get_json (net skip) 5).1 = Resp.list [] :=
    congrArg Prod.fst (get_json_all_fail (net skip) hnet)
  rw [fetch_loop, hg]

lemma catOf_mkRec (i : Nat) : catOf (mkRec i) = "N05" := rfl

lemma page_rows_all_match : ∀ l : List (List (String × PyVal)),
    (∀ x ∈ l, catOf x = "N05") → page_rows l = l.map normalize_record := by
  intro l
  induction l with
  | nil => intro _; rfl
  | cons x xs ih =>
      intro h
      have hx : catOf x = "N05" := h x (by simp)
      have ih' := ih (fun y hy => h y (by simp [hy]))
      simp only [page_rows, List.filterMap_cons, hx, if_pos, List.map_cons] at ih' ⊢
      rw [ih']

lemma stubPage_all (a n : Nat) : ∀ x ∈ stubPage a n, catOf x = "N05" := by
  intro x hx
  simp only [stubPage, List.mem_map] at hx
  obtain ⟨j, _, rfl⟩ := hx
  rfl

lemma stubPage_length (a n : Nat) : (stubPage a n).length = n := by
  simp [stubPage]

lemma stubPage_ne_nil (a n : Nat) (h : n ≠ 0) : stubPage a n ≠ [] := by
  intro he
  have hl := congrArg List.length he
  rw [stubPage_length] at hl
  simp at hl
  omega

/-- A stub upstream serving two full pages of 2000 records (at skips 0
and 2000), a short page of 500 records (at skip 4000), and nothing
elsewhere; every attempt succeeds. -/
def net5 : Nat → Nat → Option Resp := fun skip _ =>
  some (if skip = 0 then Resp.list (stubPage 0 2000)
        else if skip = 2000 then Resp.list (stubPage 2000 2000)
        else if skip = 4000 then Resp.list (stubPage 4000 500)
        else Resp.list [])

/-- Claim C5: `fetch_period_block` requests successive pages at
`skip = page_index * page_size`, stopping at the first short page;
against an upstream returning two full pages of 2000 records and then a
page of 500 (all passing the `"N05"` filter), it accumulates exactly the
4500 normalized records, in upstream page order concatenated across
pages, having requested exactly the skips `0, 2000, 4000`. -/
theorem fetch_period_block_pagination :
    fetch_period_block net5 2000 10 =
      some (((stubPage 0 2000 ++ stubPage 2000 2000 ++ stubPage 4000 500).map normalize_record),
        [0 * 2000, 1 * 2000, 2 * 2000]) ∧
    ((stubPage 0 2000 ++ stubPage 2000 2000 ++ stubPage 4000 500).map normalize_record).length
      = 4500 := by
  constructor
  · have h1 : ¬(stubPage 0 2000).length < 2000 := by rw [stubPage_length]; omega
    have h2 : ¬(stubPage 2000 2000).length < 2000 := by rw [stubPage_length]; omega
    have h3 : (stubPage 4000 500).length < 2000 := by rw [stubPage_length]; omega
    have hp0 : page_rows (stubPage 0 2000) = (stubPage 0 2000).map normalize_record :=
      page_rows_all_match _ (stubPage_all 0 2000)
    have hp1 : page_rows (stubPage 2000 2000) = (stubPage 2000 2000).map normalize_record :=
      page_rows_all_match _ (stubPage_all 2000 2000)
    have hp2 : page_rows (stubPage 4000 500) = (stubPage 4000 500).map normalize_record :=
      page_rows_all_match _ (stubPage_all 4000 500)
    calc fetch_period_block net5 2000 10
        = fetch_loop net5 2000 9 (0 + 2000) ([] ++ page_rows (stubPage 0 2000)) ([] ++ [0]) :=
          fetch_loop_continue net5 2000 9 0 [] [] (stubPage 0 2000) rfl
            (stubPage_ne_nil 0 2000 (by omega)) h1
      _ = fetch_loop net5 2000 8 (0 + 2000 + 2000)
            (([] ++ page_rows (stubPage 0 2000)) ++ page_rows (stubPage 2000 2000))
            (([] ++ [0]) ++ [0 + 2000]) :=
          fetch_loop_continue net5 2000 8 (0 + 2000) ([] ++ page_rows (stubPage 0 2000))
            ([] ++ [0]) (stubPage 2000 2000) rfl (stubPage_ne_nil 2000 2000 (by omega)) h2
      _ = some ((([] ++ page_rows (stubPage 0 2000)) ++ page_rows (stubPage 2000 2000))
            ++ page_rows (stubPage 4000 500),
            (([] ++ [0]) ++ [0 + 2000]) ++ [0 + 2000 + 2000]) :=
          fetch_loop_stop_short net5 2000 7 (0 + 2000 + 2000)
            (([] ++ page_rows (stubPage 0 2000)) ++ page_rows (stubPage 2000 2000))
            (([] ++ [0]) ++ [0 + 2000]) (stubPage 4000 500) rfl
            (stubPage_ne_nil 4000 500 (by omega)) h3
      _ = some (((stubPage 0 2000 ++ stubPage 2000 2000 ++ stubPage 4000 500).map
            normalize_record), [0 * 2000, 1 * 2000, 2 * 2000]) := by
          rw [hp0, hp1, hp2]
          simp only [List.nil_append, List.cons_append, List.map_append, List.append_assoc]
  · simp only [List.length_map, List.length_append, stubPage_length]

/-- A stub upstream: a full page (page size 2) at skip 0, and every
attempt fails at any other skip. -/
def net7a : Nat → Nat → Option Resp := fun skip _ =>
  if skip = 0 then some (Resp.list (stubPage 0 2)) else none

/-- A stub upstream that fails on every attempt at every skip. -/
def net7b : Nat → Nat → Option Resp := fun _ _ => none

/-- Claim C7: when all 5 attempts of a page fetch fail, `get_json`
returns `[]` (after the 5 linearly growing sleeps) without raising, and
`fetch_period_block` treats the page as empty and stops the window early,
returning the records already accepted from earlier pages of the window —
with page size 2: the 2 records of the first page at skips `[0, 2]` —
and the empty list when the very first page fails, with no rollback in
either case. -/
theorem fetch_period_block_partial_on_failure :
    get_json (net7b 0) 5 = (Resp.list [], [1, 2, 3, 4, 5]) ∧
    fetch_period_block net7a 2 5 = some ((stubPage 0 2).map normalize_record, [0, 2]) ∧
    fetch_period_block net7b 2 5 = some ([], [0]) := by
  refine ⟨rfl, rfl, rfl⟩
